import Mathlib

/-!
# Verification of the minizipper secure-container engine

Shallow embedding of `minizipper/secure_zipper.py` (class `SecureZipper`):
key derivation, the five byte-transform algorithms, the binary container
codec (`_encrypt_zip_file` / `_decrypt_zip_file`), the password/algorithm
state (`setpassword`), and the temp-file handling of
`_create_encrypted_zip`.

Bytes are modelled as `List Nat` (each entry a byte value).  Python strings
that the code immediately UTF-8-encodes (passwords, algorithm tokens) are
modelled by their UTF-8 byte sequences.  The `hashlib` digests
(`sha256`, `md5`, `sha1`) are external-library calls; they are modelled by
an abstract `HashLib` record of byte functions, with the digest lengths
(32, 16, 20) carried as the `HashLib.Wf` hypothesis.  The per-call
randomness `secrets.token_bytes(16)` is modelled by an explicit `salt`
argument.
-/

namespace Minizipper

/-- Abstract model of the `hashlib` digests used by the module. -/
structure HashLib where
  sha256 : List Nat → List Nat
  md5 : List Nat → List Nat
  sha1 : List Nat → List Nat

/-- The digest-length facts of the real `hashlib` functions:
SHA-256 digests are 32 bytes, MD5 16 bytes, SHA-1 20 bytes. -/
def HashLib.Wf (H : HashLib) : Prop :=
  (∀ x, (H.sha256 x).length = 32) ∧ (∀ x, (H.md5 x).length = 16) ∧
    (∀ x, (H.sha1 x).length = 20)

/-- Model of `class EncryptionAlgorithm(Enum)`: the five algorithm variants. -/
inductive EncryptionAlgorithm where
  | xor
  | hmac_sha256
  | aes_like
  | double_xor
  | custom_hash
deriving DecidableEq, Repr

/-- UTF-8 bytes of `EncryptionAlgorithm.value` for each variant
("xor", "hmac_sha256", "aes_like", "double_xor", "custom_hash"). -/
def algBytes : EncryptionAlgorithm → List Nat
  | .xor => [120, 111, 114]
  | .hmac_sha256 => [104, 109, 97, 99, 95, 115, 104, 97, 50, 53, 54]
  | .aes_like => [97, 101, 115, 95, 108, 105, 107, 101]
  | .double_xor => [100, 111, 117, 98, 108, 101, 95, 120, 111, 114]
  | .custom_hash => [99, 117, 115, 116, 111, 109, 95, 104, 97, 115, 104]

/-- Model of `EncryptionAlgorithm(token)`: look a token up among the five values;
`none` models the `ValueError` branch. -/
def parseAlg (t : List Nat) : Option EncryptionAlgorithm :=
  if t = algBytes .xor then some .xor
  else if t = algBytes .hmac_sha256 then some .hmac_sha256
  else if t = algBytes .aes_like then some .aes_like
  else if t = algBytes .double_xor then some .double_xor
  else if t = algBytes .custom_hash then some .custom_hash
  else none

/-- The mutable engine state of `SecureZipper`: `_password`
(UTF-8 bytes, `none` = encryption disabled) and `_encryption_algorithm`. -/
structure ZState where
  password : Option (List Nat)
  algorithm : EncryptionAlgorithm
deriving DecidableEq, Repr

/-- Model of `setpassword(password, algorithm)`: `None` or `""` disables encryption
by clearing `_password` (the stored algorithm is not touched by this
branch); otherwise both `_password` and `_encryption_algorithm` are set. -/
def setpassword (p : Option (List Nat)) (a : EncryptionAlgorithm)
    (st : ZState) : ZState :=
  if p = none ∨ p = some [] then ⟨none, st.algorithm⟩
  else ⟨p, a⟩

/-- Model of `_generate_key(password)`: SHA-256 of the UTF-8 password bytes. -/
def generate_key (H : HashLib) (p : List Nat) : List Nat :=
  H.sha256 p

/-- One keystream byte: `key[i % len(key)]`.  (On the empty list this
defaults to 0; every key in the module is a hash digest, hence
non-empty under `HashLib.Wf`.) -/
def keystreamByte (key : List Nat) (i : Nat) : Nat :=
  key.getD (i % key.length) 0

/-- The XOR loop shared by the transforms, carrying the running index `i`:
byte `b` at index `i` becomes `b ^^^ key[i % len(key)]`. -/
def xorCycle (key : List Nat) : Nat → List Nat → List Nat
  | _, [] => []
  | i, b :: bs => (b ^^^ keystreamByte key i) :: xorCycle key (i + 1) bs

/-- Model of `_xor_encrypt(data, key)`. -/
def xor_encrypt (data key : List Nat) : List Nat :=
  xorCycle key 0 data

/-- Model of `_hmac_sha256_encrypt(data, key)` with the random 16-byte salt made
explicit: keystream `sha256(key + salt)`, output `salt + xored data`. -/
def hmac_sha256_encrypt (H : HashLib) (salt data key : List Nat) : List Nat :=
  salt ++ xorCycle (H.sha256 (key ++ salt)) 0 data

/-- Model of `_hmac_sha256_decrypt(data, key)`: split off the 16-byte salt,
recompute the keystream, XOR the remainder. -/
def hmac_sha256_decrypt (H : HashLib) (data key : List Nat) : List Nat :=
  xorCycle (H.sha256 (key ++ data.take 16)) 0 (data.drop 16)

/-- The per-byte operation of `_aes_like_encrypt`:
`byte ^ key1[i%len] ^ key2[i%len]`, indexed loop. -/
def aesCycle (k1 k2 : List Nat) : Nat → List Nat → List Nat
  | _, [] => []
  | i, b :: bs =>
      (b ^^^ keystreamByte k1 i ^^^ keystreamByte k2 i) :: aesCycle k1 k2 (i + 1) bs

/-- Model of `_aes_like_encrypt(data, key)`: sub-keys `sha256(key+"key1")` and
`sha256(key+"key2")` (`"key1"` = bytes `[107,101,121,49]`,
`"key2"` = bytes `[107,101,121,50]`). -/
def aes_like_encrypt (H : HashLib) (data key : List Nat) : List Nat :=
  aesCycle (H.sha256 (key ++ [107, 101, 121, 49]))
    (H.sha256 (key ++ [107, 101, 121, 50])) 0 data

/-- Model of `_double_xor_encrypt(data, key)`: XOR with `key`, then with the
reversed key. -/
def double_xor_encrypt (data key : List Nat) : List Nat :=
  xor_encrypt (xor_encrypt data key) key.reverse

/-- The per-byte operation of `_custom_hash_encrypt`: XOR with the MD5,
SHA-1 and SHA-256 keystreams in one indexed loop. -/
def customCycle (kMd5 kSha1 kSha256 : List Nat) : Nat → List Nat → List Nat
  | _, [] => []
  | i, b :: bs =>
      (b ^^^ keystreamByte kMd5 i ^^^ keystreamByte kSha1 i ^^^
        keystreamByte kSha256 i) :: customCycle kMd5 kSha1 kSha256 (i + 1) bs

/-- Model of `_custom_hash_encrypt(data, key)`. -/
def custom_hash_encrypt (H : HashLib) (data key : List Nat) : List Nat :=
  customCycle (H.md5 key) (H.sha1 key) (H.sha256 key) 0 data

/-- Model of `_encrypt_data(data, password)`: derive the key and dispatch on the
selected algorithm (`salt` models the fresh `secrets.token_bytes(16)`
drawn inside `_hmac_sha256_encrypt`; only that branch consumes it). -/
def encrypt_data (H : HashLib) (a : EncryptionAlgorithm)
    (p salt data : List Nat) : List Nat :=
  match a with
  | .xor => xor_encrypt data (generate_key H p)
  | .hmac_sha256 => hmac_sha256_encrypt H salt data (generate_key H p)
  | .aes_like => aes_like_encrypt H data (generate_key H p)
  | .double_xor => double_xor_encrypt data (generate_key H p)
  | .custom_hash => custom_hash_encrypt H data (generate_key H p)

/-- Model of `_decrypt_data(data, password)`: HMAC-SHA256 has a dedicated decoder;
every other algorithm is self-inverse, so decryption re-runs
`_encrypt_data` (which does not consume a salt on those branches). -/
def decrypt_data (H : HashLib) (a : EncryptionAlgorithm)
    (p data : List Nat) : List Nat :=
  match a with
  | .hmac_sha256 => hmac_sha256_decrypt H data (generate_key H p)
  | _ => encrypt_data H a p [] data

/-- The 9-byte file identifier `b'SECUREZIP'`. -/
def magicBytes : List Nat :=
  [83, 69, 67, 85, 82, 69, 90, 73, 80]

/-- The four little-endian bytes of a `uint32` value. -/
def le4bytes (n : Nat) : List Nat :=
  [n % 256, n / 256 % 256, n / 65536 % 256, n / 16777216 % 256]

/-- Model of `struct.pack('<I', n)`: little-endian `uint32`; raises
(`none`) when the value does not fit in 32 bits. -/
def toLE4 (n : Nat) : Option (List Nat) :=
  if n < 4294967296 then some (le4bytes n) else none

/-- Model of `struct.unpack('<I', bytes)` on a 4-byte field. -/
def fromLE4 (l : List Nat) : Nat :=
  l.getD 0 0 + 256 * l.getD 1 0 + 65536 * l.getD 2 0 + 16777216 * l.getD 3 0

/-- A UTF-8 continuation byte (`0x80`–`0xBF`). -/
def contByte (b : Nat) : Bool :=
  128 ≤ b && b ≤ 191

/-- Strict UTF-8 validity of a byte sequence, as enforced by Python's
`bytes.decode('utf-8')`: rejects continuation-byte shortages, overlong
encodings, surrogates and code points above `U+10FFFF`. -/
def isValidUtf8 : List Nat → Bool
  | [] => true
  | b :: rest =>
    if b ≤ 127 then isValidUtf8 rest
    else if 194 ≤ b && b ≤ 223 then
      match rest with
      | c1 :: r => contByte c1 && isValidUtf8 r
      | [] => false
    else if b = 224 then
      match rest with
      | c1 :: c2 :: r => (160 ≤ c1 && c1 ≤ 191) && contByte c2 && isValidUtf8 r
      | _ => false
    else if (225 ≤ b && b ≤ 236) || (238 ≤ b && b ≤ 239) then
      match rest with
      | c1 :: c2 :: r => contByte c1 && contByte c2 && isValidUtf8 r
      | _ => false
    else if b = 237 then
      match rest with
      | c1 :: c2 :: r => (128 ≤ c1 && c1 ≤ 159) && contByte c2 && isValidUtf8 r
      | _ => false
    else if b = 240 then
      match rest with
      | c1 :: c2 :: c3 :: r =>
          (144 ≤ c1 && c1 ≤ 191) && contByte c2 && contByte c3 && isValidUtf8 r
      | _ => false
    else if 241 ≤ b && b ≤ 243 then
      match rest with
      | c1 :: c2 :: c3 :: r =>
          contByte c1 && contByte c2 && contByte c3 && isValidUtf8 r
      | _ => false
    else if b = 244 then
      match rest with
      | c1 :: c2 :: c3 :: r =>
          (128 ≤ c1 && c1 ≤ 143) && contByte c2 && contByte c3 && isValidUtf8 r
      | _ => false
    else false

/-- Model of `_encrypt_zip_file(input, output, password)` at the byte level: the
input file's bytes go in, the container file's bytes come out.
`none` models the `struct.error` raised by `struct.pack('<I', ...)`
when the ciphertext length does not fit in 32 bits (the only failing
step; it fires before the output file is opened). -/
def encrypt_zip_file (H : HashLib) (st : ZState) (p salt data : List Nat) :
    Option (List Nat) :=
  let encrypted := encrypt_data H st.algorithm p salt data
  match toLE4 encrypted.length with
  | none => none
  | some header =>
      some (magicBytes ++ header ++ (H.sha256 p).take 8 ++
        [(algBytes st.algorithm).length] ++ algBytes st.algorithm ++ encrypted)

/-- Outcome of `_decrypt_zip_file`, by stage.  The Python method returns
`False` on the first three constructors (bad magic at line 266, commitment
mismatch at line 276, and the `except` path for a `struct.unpack` on a
short read or a `UnicodeDecodeError` on the token) and `True` with the
decrypted bytes written to the output file on `ok`. -/
inductive DecodeResult where
  | badMagic
  | badCommit
  | parseFailed
  | ok (out : List Nat)
deriving DecidableEq, Repr

/-- Model of `_decrypt_zip_file(input, output, password)` at the byte level,
returning the staged outcome together with the (possibly mutated) engine
state: reading the token may adopt the container's algorithm before the
ciphertext is decrypted. -/
def decrypt_zip_file (H : HashLib) (st : ZState) (container p : List Nat) :
    DecodeResult × ZState :=
  if container.take 9 ≠ magicBytes then (.badMagic, st)
  else
    let r1 := container.drop 9
    if r1.length < 4 then (.parseFailed, st)
    else
      let dataLen := fromLE4 (r1.take 4)
      let r2 := r1.drop 4
      if r2.take 8 ≠ (H.sha256 p).take 8 then (.badCommit, st)
      else
        let r3 := r2.drop 8
        if r3.length < 1 then (.parseFailed, st)
        else
          let algLen := r3.headD 0
          let r4 := r3.drop 1
          let token := r4.take algLen
          if ¬ isValidUtf8 token then (.parseFailed, st)
          else
            let st' :=
              if token ≠ [] ∧ token ≠ algBytes st.algorithm then
                match parseAlg token with
                | some a => ⟨st.password, a⟩
                | none => st
              else st
            let encrypted := (r4.drop algLen).take dataLen
            (.ok (decrypt_data H st'.algorithm p encrypted), st')

/-- An abstract file system: an association list from paths to byte
contents (most recent write first). -/
def FS : Type := List (String × List Nat)

/-- Write (create or overwrite) a file. -/
def fsWrite (fs : FS) (path : String) (d : List Nat) : FS :=
  (path, d) :: List.filter (fun e => decide (e.1 ≠ path)) fs

/-- Model of `Path.unlink()`: remove a file. -/
def fsRemove (fs : FS) (path : String) : FS :=
  List.filter (fun e => decide (e.1 ≠ path)) fs

/-- Contents of a file, if present. -/
def fsLookup (fs : FS) (path : String) : Option (List Nat) :=
  (List.find? (fun e => decide (e.1 = path)) fs).map (fun e => e.2)

/-- Outcome of `_create_encrypted_zip`: the returned output path, or the
propagated exception. -/
inductive CreateResult where
  | ok (outPath : String)
  | err
deriving DecidableEq, Repr

/-- Model of `_create_encrypted_zip(source, output, include_hidden)` against the
abstract file system.  `zipData` is the archive built by the (external)
archive codec; the method writes it to the `.tmp.zip` path, encrypts it
into the output container, then unlinks the temporary file.  There is no
`try`/`finally`: if `_encrypt_zip_file` raises, the exception propagates
with the temporary file still on disk. -/
def create_encrypted_zip (H : HashLib) (st : ZState)
    (tempPath outPath : String) (p salt zipData : List Nat) (fs : FS) :
    CreateResult × FS :=
  let fs1 := fsWrite fs tempPath zipData
  match encrypt_zip_file H st p salt zipData with
  | none => (.err, fs1)
  | some container =>
      let fs2 := fsWrite fs1 outPath container
      (.ok outPath, fsRemove fs2 tempPath)

/-! ## Basic lemmas about the byte transforms -/

theorem xorCycle_length (key : List Nat) (i : Nat) (d : List Nat) :
    (xorCycle key i d).length = d.length := by
  induction d generalizing i with
  | nil => rfl
  | cons b bs ih => simp [xorCycle, ih]

theorem xorCycle_xorCycle (key : List Nat) (i : Nat) (d : List Nat) :
    xorCycle key i (xorCycle key i d) = d := by
  induction d generalizing i with
  | nil => rfl
  | cons b bs ih => simp [xorCycle, Nat.xor_cancel_right, ih]

theorem xorCycle_comm (k1 k2 : List Nat) (i : Nat) (d : List Nat) :
    xorCycle k2 i (xorCycle k1 i d) = xorCycle k1 i (xorCycle k2 i d) := by
  induction d generalizing i with
  | nil => rfl
  | cons b bs ih =>
      simp only [xorCycle, ih, List.cons.injEq, and_true]
      rw [Nat.xor_assoc, Nat.xor_comm (keystreamByte k1 i), ← Nat.xor_assoc]

theorem aesCycle_aesCycle (k1 k2 : List Nat) (i : Nat) (d : List Nat) :
    aesCycle k1 k2 i (aesCycle k1 k2 i d) = d := by
  induction d generalizing i with
  | nil => rfl
  | cons b bs ih =>
      simp only [aesCycle, ih, List.cons.injEq, and_true]
      rw [Nat.xor_assoc (b ^^^ keystreamByte k1 i ^^^ keystreamByte k2 i),
        Nat.xor_comm (keystreamByte k1 i), ← Nat.xor_assoc,
        Nat.xor_cancel_right, Nat.xor_cancel_right]

theorem customCycle_customCycle (kA kB kC : List Nat) (i : Nat) (d : List Nat) :
    customCycle kA kB kC i (customCycle kA kB kC i d) = d := by
  induction d generalizing i with
  | nil => rfl
  | cons b bs ih =>
      simp only [customCycle, ih, List.cons.injEq, and_true]
      set a := keystreamByte kA i
      set c := keystreamByte kB i
      set e := keystreamByte kC i
      rw [Nat.xor_assoc (b ^^^ a ^^^ c ^^^ e ^^^ a), Nat.xor_comm c e,
        ← Nat.xor_assoc, Nat.xor_assoc (b ^^^ a ^^^ c ^^^ e),
        Nat.xor_comm a e, ← Nat.xor_assoc, Nat.xor_cancel_right,
        Nat.xor_assoc (b ^^^ a ^^^ c), Nat.xor_comm a c, ← Nat.xor_assoc,
        Nat.xor_cancel_right, Nat.xor_cancel_right]

theorem aesCycle_length (k1 k2 : List Nat) (i : Nat) (d : List Nat) :
    (aesCycle k1 k2 i d).length = d.length := by
  induction d generalizing i with
  | nil => rfl
  | cons b bs ih => simp [aesCycle, ih]

theorem customCycle_length (kA kB kC : List Nat) (i : Nat) (d : List Nat) :
    (customCycle kA kB kC i d).length = d.length := by
  induction d generalizing i with
  | nil => rfl
  | cons b bs ih => simp [customCycle, ih]

/-- Algorithm-by-algorithm inverse law for `_decrypt_data` applied to
`_encrypt_data` (the HMAC case needs the salt to be exactly 16 bytes). -/
theorem decrypt_data_encrypt_data (H : HashLib) (a : EncryptionAlgorithm)
    (p salt data : List Nat) (hs : salt.length = 16) :
    decrypt_data H a p (encrypt_data H a p salt data) = data := by
  cases a with
  | xor =>
      simp [decrypt_data, encrypt_data, xor_encrypt, xorCycle_xorCycle]
  | hmac_sha256 =>
      simp only [decrypt_data, encrypt_data, hmac_sha256_encrypt,
        hmac_sha256_decrypt]
      rw [List.take_left' hs, List.drop_left' hs, xorCycle_xorCycle]
  | aes_like =>
      simp [decrypt_data, encrypt_data, aes_like_encrypt, aesCycle_aesCycle]
  | double_xor =>
      simp only [decrypt_data, encrypt_data, double_xor_encrypt, xor_encrypt]
      rw [xorCycle_comm (generate_key H p).reverse (generate_key H p) 0
        (xorCycle (generate_key H p) 0 data),
        xorCycle_xorCycle, xorCycle_xorCycle]
  | custom_hash =>
      simp [decrypt_data, encrypt_data, custom_hash_encrypt,
        customCycle_customCycle]

/-! ## Container codec lemmas -/

theorem le4bytes_length (n : Nat) : (le4bytes n).length = 4 := rfl

theorem fromLE4_le4bytes (n : Nat) (h : n < 4294967296) :
    fromLE4 (le4bytes n) = n := by
  show n % 256 + 256 * (n / 256 % 256) + 65536 * (n / 65536 % 256) +
    16777216 * (n / 16777216 % 256) = n
  omega

theorem magicBytes_length : magicBytes.length = 9 := rfl

/-- Shape of the container written by `_encrypt_zip_file` when the
ciphertext length fits in 32 bits. -/
theorem encrypt_zip_file_eq (H : HashLib) (st : ZState)
    (p salt data : List Nat)
    (hL : (encrypt_data H st.algorithm p salt data).length < 4294967296) :
    encrypt_zip_file H st p salt data =
      some (magicBytes ++
        le4bytes (encrypt_data H st.algorithm p salt data).length ++
        (H.sha256 p).take 8 ++ [(algBytes st.algorithm).length] ++
        algBytes st.algorithm ++ encrypt_data H st.algorithm p salt data) := by
  simp [encrypt_zip_file, toLE4, hL]

/-- Evaluation of `_decrypt_zip_file` on a well-formed container layout
with an arbitrary commitment field, token and ciphertext: the commitment
comparison happens first, then UTF-8 decoding of the token, then
algorithm adoption, then decryption of the ciphertext. -/
theorem decrypt_zip_file_layout (H : HashLib) (st : ZState)
    (p2 : List Nat) (L : Nat) (hL : L < 4294967296) (c8 t ct : List Nat)
    (h8 : c8.length = 8) (hct : ct.length = L) :
    decrypt_zip_file H st
      (magicBytes ++ le4bytes L ++ c8 ++ [t.length] ++ t ++ ct) p2 =
      if c8 ≠ (H.sha256 p2).take 8 then (.badCommit, st)
      else if ¬ isValidUtf8 t then (.parseFailed, st)
      else
        (.ok (decrypt_data H
          (if t ≠ [] ∧ t ≠ algBytes st.algorithm then
            match parseAlg t with
            | some a => (⟨st.password, a⟩ : ZState)
            | none => st
          else st).algorithm p2 ct),
         if t ≠ [] ∧ t ≠ algBytes st.algorithm then
           match parseAlg t with
           | some a => (⟨st.password, a⟩ : ZState)
           | none => st
         else st) := by
  have e9t : (magicBytes ++ (le4bytes L ++ (c8 ++ (t.length :: (t ++ ct))))).take 9
      = magicBytes := List.take_left' rfl
  have e9d : (magicBytes ++ (le4bytes L ++ (c8 ++ (t.length :: (t ++ ct))))).drop 9
      = le4bytes L ++ (c8 ++ (t.length :: (t ++ ct))) := List.drop_left' rfl
  have e4t : (le4bytes L ++ (c8 ++ (t.length :: (t ++ ct)))).take 4
      = le4bytes L := List.take_left' rfl
  have e4d : (le4bytes L ++ (c8 ++ (t.length :: (t ++ ct)))).drop 4
      = c8 ++ (t.length :: (t ++ ct)) := List.drop_left' rfl
  have e8t : (c8 ++ (t.length :: (t ++ ct))).take 8 = c8 :=
    List.take_left' h8
  have e8d : (c8 ++ (t.length :: (t ++ ct))).drop 8 =
      t.length :: (t ++ ct) := List.drop_left' h8
  have ett : (t ++ ct).take t.length = t := List.take_left t ct
  have etd : (t ++ ct).drop t.length = ct := List.drop_left t ct
  have hlen : ¬ (le4bytes L ++ (c8 ++ (t.length :: (t ++ ct)))).length < 4 := by
    simp [le4bytes]
  have h1 : ¬ (t.length :: (t ++ ct)).length < 1 := by simp
  have ec : ct.take L = ct := by rw [← hct]; exact List.take_length ct
  simp only [decrypt_zip_file, List.append_assoc, List.singleton_append,
    List.cons_append, List.nil_append, e9t, e9d, e4t, e4d, e8t, e8d,
    ett, etd, hlen, h1,
    fromLE4_le4bytes L hL, List.headD_cons, List.drop_one, List.tail_cons,
    ec, ne_eq, not_true_eq_false, if_false, ite_false]

/-! ## Token facts and the general decode-of-encode law -/

theorem algBytes_ne_nil (a : EncryptionAlgorithm) : algBytes a ≠ [] := by
  cases a <;> simp [algBytes]

theorem isValidUtf8_algBytes (a : EncryptionAlgorithm) :
    isValidUtf8 (algBytes a) = true := by
  cases a <;> rfl

theorem parseAlg_algBytes (a : EncryptionAlgorithm) :
    parseAlg (algBytes a) = some a := by
  cases a <;> rfl

theorem algBytes_inj {a b : EncryptionAlgorithm}
    (h : algBytes a = algBytes b) : a = b := by
  cases a <;> cases b <;> simp_all [algBytes]

theorem commit_length (H : HashLib) (hW : H.Wf) (p : List Nat) :
    ((H.sha256 p).take 8).length = 8 := by
  rw [List.length_take, hW.1 p]
  omega

/-- Destructor for a successful `_encrypt_zip_file`: the ciphertext
length fits in 32 bits and the container has the documented layout. -/
theorem encrypt_zip_file_some (H : HashLib) (st : ZState)
    (p salt data c : List Nat)
    (h : encrypt_zip_file H st p salt data = some c) :
    (encrypt_data H st.algorithm p salt data).length < 4294967296 ∧
    c = magicBytes ++
      le4bytes (encrypt_data H st.algorithm p salt data).length ++
      (H.sha256 p).take 8 ++ [(algBytes st.algorithm).length] ++
      algBytes st.algorithm ++ encrypt_data H st.algorithm p salt data := by
  by_cases hL : (encrypt_data H st.algorithm p salt data).length < 4294967296
  · rw [encrypt_zip_file_eq H st p salt data hL] at h
    exact ⟨hL, (Option.some.inj h).symm⟩
  · simp [encrypt_zip_file, toLE4, hL] at h

/-- Decoding a container written with password `p` and state `st`, by a
decoder in an arbitrary state `st2` supplying the same password,
recovers the plaintext; the decoder's algorithm is overridden by the
container's token when the two differ. -/
theorem decode_encode (H : HashLib) (hW : H.Wf) (st st2 : ZState)
    (p salt data c : List Nat) (hs : salt.length = 16)
    (henc : encrypt_zip_file H st p salt data = some c) :
    decrypt_zip_file H st2 c p =
      (.ok data,
       if st.algorithm = st2.algorithm then st2
       else ⟨st2.password, st.algorithm⟩) := by
  obtain ⟨hL, hc⟩ := encrypt_zip_file_some H st p salt data c henc
  subst hc
  rw [decrypt_zip_file_layout H st2 p
      (encrypt_data H st.algorithm p salt data).length hL
      ((H.sha256 p).take 8) (algBytes st.algorithm)
      (encrypt_data H st.algorithm p salt data)
      (commit_length H hW p) rfl]
  simp only [ne_eq, not_true_eq_false, if_false, isValidUtf8_algBytes,
    not_true, Bool.not_true, algBytes_ne_nil, not_false_eq_true, true_and,
    parseAlg_algBytes]
  by_cases heq : st.algorithm = st2.algorithm
  · have ht : algBytes st.algorithm = algBytes st2.algorithm := by rw [heq]
    simp only [ht, not_true_eq_false, false_and, if_false, ite_false, heq,
      if_true, ite_true]
    rw [← heq, decrypt_data_encrypt_data H st.algorithm p salt data hs]
  · have ht : ¬ algBytes st.algorithm = algBytes st2.algorithm :=
      fun h => heq (algBytes_inj h)
    simp only [ht, not_false_eq_true, and_true, if_true, ite_true, heq,
      if_false, ite_false]
    rw [decrypt_data_encrypt_data H st.algorithm p salt data hs]

/-! ## File-system lemmas -/

theorem fsLookup_fsWrite_self (fs : FS) (path : String) (d : List Nat) :
    fsLookup (fsWrite fs path d) path = some d := by
  simp [fsLookup, fsWrite]

theorem fsLookup_fsRemove_self (fs : FS) (path : String) :
    fsLookup (fsRemove fs path) path = none := by
  apply Option.map_eq_none.mpr
  apply List.find?_eq_none.mpr
  intro e he
  have := (List.mem_filter.mp he).2
  simpa using this

theorem fsLookup_fsRemove_other (fs : FS) (path q : String) (h : q ≠ path) :
    fsLookup (fsRemove fs path) q = fsLookup fs q := by
  have hp : (fun e : String × List Nat =>
        decide (decide (e.1 ≠ path) = true ∧ decide (e.1 = q) = true)) =
      (fun e : String × List Nat => decide (e.1 = q)) := by
    funext e
    by_cases he : e.1 = q
    · have hne : e.1 ≠ path := fun hp2 => h (he.symm.trans hp2)
      simp [he, hne]
      exact h
    · simp [he]
  simp only [fsRemove, fsLookup, List.find?_filter, hp]

/-- A concrete stand-in for `hashlib` with the right digest lengths, used
to instantiate the abstract `HashLib` on sample inputs. -/
def sampleHash : HashLib :=
  ⟨fun l => l.headD 0 % 256 :: List.replicate 31 0,
   fun l => l.headD 0 % 256 :: List.replicate 15 0,
   fun l => l.headD 0 % 256 :: List.replicate 19 0⟩

theorem sampleHash_wf : sampleHash.Wf :=
  ⟨fun _ => rfl, fun _ => rfl, fun _ => rfl⟩

/-! ## Claim theorems -/

/-- C1: Round-trip law. For every blob, every non-empty password and every
algorithm (the encoder state `st` carries the algorithm), decrypting the
container produced by `_encrypt_zip_file` with the same password recovers
the blob exactly (and leaves the engine state unchanged, since the
container's token matches the configured algorithm). -/
theorem C1_round_trip (H : HashLib) (hW : H.Wf) (st : ZState)
    (p salt data c : List Nat) (hp : p ≠ []) (hs : salt.length = 16)
    (henc : encrypt_zip_file H st p salt data = some c) :
    decrypt_zip_file H st c p = (.ok data, st) := by
  rw [decode_encode H hW st st p salt data c hs henc]
  simp

theorem C1_round_trip_witness :
    decrypt_zip_file sampleHash ⟨some [97], .xor⟩
      ((encrypt_zip_file sampleHash ⟨some [97], .xor⟩ [97]
        (List.replicate 16 7) [1, 2, 3]).getD []) [97] =
      (.ok [1, 2, 3], ⟨some [97], .xor⟩) :=
  C1_round_trip sampleHash sampleHash_wf ⟨some [97], .xor⟩ [97]
    (List.replicate 16 7) [1, 2, 3] _ (by decide) (by decide) (by decide)

/-- C2: container layout. A successful encode writes exactly
magic(9) ++ little-endian length(4) ++ commitment(8) = first 8 bytes of
SHA-256 of the password bytes ++ token-length(1) ++ token = the algorithm
selected at encode time ++ ciphertext; for `hmac_sha256` the ciphertext's
first 16 bytes are the salt and the rest is the XORed payload. -/
theorem C2_container_layout (H : HashLib) (st : ZState)
    (p salt data : List Nat) (hs : salt.length = 16)
    (hL : (encrypt_data H st.algorithm p salt data).length < 4294967296) :
    encrypt_zip_file H st p salt data =
      some (magicBytes ++
        le4bytes (encrypt_data H st.algorithm p salt data).length ++
        (H.sha256 p).take 8 ++ [(algBytes st.algorithm).length] ++
        algBytes st.algorithm ++ encrypt_data H st.algorithm p salt data) ∧
    (st.algorithm = .hmac_sha256 →
      (encrypt_data H st.algorithm p salt data).take 16 = salt ∧
      (encrypt_data H st.algorithm p salt data).drop 16 =
        xorCycle (H.sha256 (generate_key H p ++ salt)) 0 data) := by
  refine ⟨encrypt_zip_file_eq H st p salt data hL, fun hA => ?_⟩
  rw [hA]
  simp only [encrypt_data, hmac_sha256_encrypt]
  exact ⟨List.take_left' hs, List.drop_left' hs⟩

theorem C2_container_layout_witness :
    encrypt_zip_file sampleHash ⟨some [97], .hmac_sha256⟩ [97]
        (List.replicate 16 7) [1, 2, 3] =
      some (magicBytes ++
        le4bytes (encrypt_data sampleHash .hmac_sha256 [97]
          (List.replicate 16 7) [1, 2, 3]).length ++
        (sampleHash.sha256 [97]).take 8 ++
        [(algBytes EncryptionAlgorithm.hmac_sha256).length] ++
        algBytes .hmac_sha256 ++
        encrypt_data sampleHash .hmac_sha256 [97]
          (List.replicate 16 7) [1, 2, 3]) ∧
    (EncryptionAlgorithm.hmac_sha256 = .hmac_sha256 →
      (encrypt_data sampleHash .hmac_sha256 [97]
        (List.replicate 16 7) [1, 2, 3]).take 16 = List.replicate 16 7 ∧
      (encrypt_data sampleHash .hmac_sha256 [97]
        (List.replicate 16 7) [1, 2, 3]).drop 16 =
        xorCycle (sampleHash.sha256
          (generate_key sampleHash [97] ++ List.replicate 16 7)) 0
          [1, 2, 3]) :=
  C2_container_layout sampleHash ⟨some [97], .hmac_sha256⟩ [97]
    (List.replicate 16 7) [1, 2, 3] (by decide) (by decide)

/-- C3: wrong password. If the 8-byte commitment recomputed from the
supplied password differs from the stored one (the byte-level meaning of
"wrong password"), decoding any freshly written container stops with
`badCommit` — the stage before the token is read or any byte transform is
run — for every decoder state, which is left unchanged. -/
theorem C3_wrong_password (H : HashLib) (hW : H.Wf) (st st2 : ZState)
    (p p2 salt data c : List Nat) (hp : p ≠ []) (hne : p2 ≠ p)
    (hcm : (H.sha256 p2).take 8 ≠ (H.sha256 p).take 8)
    (henc : encrypt_zip_file H st p salt data = some c) :
    decrypt_zip_file H st2 c p2 = (.badCommit, st2) := by
  obtain ⟨hL, hc⟩ := encrypt_zip_file_some H st p salt data c henc
  subst hc
  rw [decrypt_zip_file_layout H st2 p2
      (encrypt_data H st.algorithm p salt data).length hL
      ((H.sha256 p).take 8) (algBytes st.algorithm)
      (encrypt_data H st.algorithm p salt data)
      (commit_length H hW p) rfl]
  rw [if_pos (Ne.symm hcm)]

theorem C3_wrong_password_witness :
    decrypt_zip_file sampleHash ⟨some [98], .xor⟩
      ((encrypt_zip_file sampleHash ⟨some [97], .xor⟩ [97]
        (List.replicate 16 7) [1, 2, 3]).getD []) [98] =
      (.badCommit, ⟨some [98], .xor⟩) :=
  C3_wrong_password sampleHash sampleHash_wf ⟨some [97], .xor⟩
    ⟨some [98], .xor⟩ [97] [98] (List.replicate 16 7) [1, 2, 3] _
    (by decide) (by decide) (by decide) (by decide)

/-- C4: auto-detection. A container encoded under algorithm `A` is decoded
by an engine configured with a different algorithm `A2`: the stored token
overrides the caller's configuration, the blob is recovered, and the
resulting state carries the adopted algorithm `A`. -/
theorem C4_auto_detect (H : HashLib) (hW : H.Wf) (pw pw2 : Option (List Nat))
    (A A2 : EncryptionAlgorithm) (hAA : A2 ≠ A) (p salt data c : List Nat)
    (hp : p ≠ []) (hs : salt.length = 16)
    (henc : encrypt_zip_file H ⟨pw, A⟩ p salt data = some c) :
    decrypt_zip_file H ⟨pw2, A2⟩ c p = (.ok data, ⟨pw2, A⟩) := by
  rw [decode_encode H hW ⟨pw, A⟩ ⟨pw2, A2⟩ p salt data c hs henc]
  rw [if_neg (fun hh => hAA (Eq.symm hh))]

theorem C4_auto_detect_witness :
    decrypt_zip_file sampleHash ⟨some [97], .xor⟩
      ((encrypt_zip_file sampleHash ⟨some [97], .hmac_sha256⟩ [97]
        (List.replicate 16 7) [1, 2, 3]).getD []) [97] =
      (.ok [1, 2, 3], ⟨some [97], .hmac_sha256⟩) :=
  C4_auto_detect sampleHash sampleHash_wf (some [97]) (some [97])
    .hmac_sha256 .xor (by decide) [97] (List.replicate 16 7) [1, 2, 3] _
    (by decide) (by decide) (by decide)

/-- C5 (counterexample): a container whose token byte `0xFF` is not valid
UTF-8 makes `bytes.decode('utf-8')` raise, so `_decrypt_zip_file` returns
`False` instead of falling back to the configured algorithm and
proceeding: the claim fails for tokens that are not UTF-8-decodable. -/
theorem C5_counterexample :
    decrypt_zip_file sampleHash ⟨some [97], .xor⟩
      (magicBytes ++ le4bytes 1 ++ (sampleHash.sha256 [97]).take 8 ++
        [1] ++ [255] ++ [5]) [97] =
      (.parseFailed, ⟨some [97], .xor⟩) ∧
    (decrypt_zip_file sampleHash ⟨some [97], .xor⟩
      (magicBytes ++ le4bytes 1 ++ (sampleHash.sha256 [97]).take 8 ++
        [1] ++ [255] ++ [5]) [97]).1 ≠
      DecodeResult.ok (decrypt_data sampleHash .xor [97] [5]) := by
  decide

/-- C5 (amended): for a container whose token IS UTF-8-decodable but not
one of the five known tokens, decoding does not abort: the engine keeps
the caller's configured algorithm (the `ValueError` of
`EncryptionAlgorithm(token)` is caught) and proceeds to decrypt the
ciphertext with it; tokens that are not valid UTF-8 instead fail the
decode. -/
theorem C5_unknown_token_fallback (H : HashLib) (hW : H.Wf) (st : ZState)
    (p t ct : List Nat) (L : Nat) (hL : L < 4294967296)
    (hct : ct.length = L) (hvalid : isValidUtf8 t = true)
    (hunknown : parseAlg t = none) :
    decrypt_zip_file H st
      (magicBytes ++ le4bytes L ++ (H.sha256 p).take 8 ++ [t.length] ++
        t ++ ct) p =
      (.ok (decrypt_data H st.algorithm p ct), st) := by
  rw [decrypt_zip_file_layout H st p L hL ((H.sha256 p).take 8) t ct
      (commit_length H hW p) hct]
  simp only [ne_eq, not_true_eq_false, if_false, ite_false, hvalid,
    Bool.not_true, hunknown, ite_self]

theorem C5_unknown_token_fallback_witness :
    decrypt_zip_file sampleHash ⟨some [97], .xor⟩
      (magicBytes ++ le4bytes 1 ++ (sampleHash.sha256 [97]).take 8 ++
        [1] ++ [122] ++ [5]) [97] =
      (.ok (decrypt_data sampleHash .xor [97] [5]), ⟨some [97], .xor⟩) :=
  C5_unknown_token_fallback sampleHash sampleHash_wf ⟨some [97], .xor⟩
    [97] [122] [5] 1 (by decide) (by decide) (by decide) (by decide)

/-- Non-HMAC branches of `_encrypt_data` never read the salt. -/
theorem encrypt_data_salt_irrel (H : HashLib) (A : EncryptionAlgorithm)
    (hA : A ≠ .hmac_sha256) (p s1 s2 data : List Nat) :
    encrypt_data H A p s1 data = encrypt_data H A p s2 data := by
  cases A with
  | hmac_sha256 => exact absurd rfl hA
  | _ => rfl

/-- C6: Determinism. Under `xor`, `aes_like`, `double_xor` and
`custom_hash` the container bytes are a function of password and blob
alone (two calls with distinct random salts agree byte-for-byte); under
`hmac_sha256` two calls with distinct salts yield different ciphertexts,
and both containers decode back to the blob with the same password. -/
theorem C6_determinism (H : HashLib) (hW : H.Wf) (pw : Option (List Nat))
    (A : EncryptionAlgorithm) (hA : A ≠ .hmac_sha256)
    (p data s1 s2 c1 c2 : List Nat) (hp : p ≠ [])
    (h1 : s1.length = 16) (h2 : s2.length = 16) (hne : s1 ≠ s2)
    (henc1 : encrypt_zip_file H ⟨pw, .hmac_sha256⟩ p s1 data = some c1)
    (henc2 : encrypt_zip_file H ⟨pw, .hmac_sha256⟩ p s2 data = some c2) :
    encrypt_zip_file H ⟨pw, A⟩ p s1 data =
      encrypt_zip_file H ⟨pw, A⟩ p s2 data ∧
    encrypt_data H .hmac_sha256 p s1 data ≠
      encrypt_data H .hmac_sha256 p s2 data ∧
    decrypt_zip_file H ⟨pw, .hmac_sha256⟩ c1 p =
      (.ok data, ⟨pw, .hmac_sha256⟩) ∧
    decrypt_zip_file H ⟨pw, .hmac_sha256⟩ c2 p =
      (.ok data, ⟨pw, .hmac_sha256⟩) := by
  refine ⟨?_, ?_, ?_, ?_⟩
  · simp only [encrypt_zip_file]
    rw [encrypt_data_salt_irrel H A hA p s1 s2 data]
  · intro heq
    simp only [encrypt_data, hmac_sha256_encrypt] at heq
    have := congrArg (List.take 16) heq
    rw [List.take_left' h1, List.take_left' h2] at this
    exact hne this
  · rw [decode_encode H hW ⟨pw, .hmac_sha256⟩ ⟨pw, .hmac_sha256⟩ p s1 data
      c1 h1 henc1]
    simp
  · rw [decode_encode H hW ⟨pw, .hmac_sha256⟩ ⟨pw, .hmac_sha256⟩ p s2 data
      c2 h2 henc2]
    simp

theorem C6_determinism_witness :
    encrypt_zip_file sampleHash ⟨some [97], .xor⟩ [97]
        (List.replicate 16 0) [1, 2, 3] =
      encrypt_zip_file sampleHash ⟨some [97], .xor⟩ [97]
        (List.replicate 16 1) [1, 2, 3] ∧
    encrypt_data sampleHash .hmac_sha256 [97]
        (List.replicate 16 0) [1, 2, 3] ≠
      encrypt_data sampleHash .hmac_sha256 [97]
        (List.replicate 16 1) [1, 2, 3] ∧
    decrypt_zip_file sampleHash ⟨some [97], .hmac_sha256⟩
      ((encrypt_zip_file sampleHash ⟨some [97], .hmac_sha256⟩ [97]
        (List.replicate 16 0) [1, 2, 3]).getD []) [97] =
      (.ok [1, 2, 3], ⟨some [97], .hmac_sha256⟩) ∧
    decrypt_zip_file sampleHash ⟨some [97], .hmac_sha256⟩
      ((encrypt_zip_file sampleHash ⟨some [97], .hmac_sha256⟩ [97]
        (List.replicate 16 1) [1, 2, 3]).getD []) [97] =
      (.ok [1, 2, 3], ⟨some [97], .hmac_sha256⟩) :=
  C6_determinism sampleHash sampleHash_wf (some [97]) .xor (by decide)
    [97] [1, 2, 3] (List.replicate 16 0) (List.replicate 16 1) _ _
    (by decide) (by decide) (by decide) (by decide) (by decide) (by decide)

/-- C7 (counterexample): `setpassword` with an empty/absent password does
NOT clear the stored algorithm — clearing a state configured with
`hmac_sha256` leaves `_encryption_algorithm` at `hmac_sha256`, not back
at the `xor` default. -/
theorem C7_counterexample :
    setpassword none .xor ⟨some [97], .hmac_sha256⟩ =
      (⟨none, .hmac_sha256⟩ : ZState) ∧
    (setpassword none .xor ⟨some [97], .hmac_sha256⟩).algorithm ≠ .xor := by
  decide

/-- C7 (amended): `setpassword` with `None` or the empty password clears
only the stored password (disabling encryption) and leaves the stored
algorithm at its previous value; a non-empty password stores both the
password and the given algorithm.  The operation is total (never
raises). -/
theorem C7_setpassword (p : Option (List Nat)) (a : EncryptionAlgorithm)
    (st : ZState) :
    setpassword p a st =
      match p with
      | none => ⟨none, st.algorithm⟩
      | some [] => ⟨none, st.algorithm⟩
      | some bs => ⟨some bs, a⟩ := by
  cases p with
  | none => rfl
  | some l =>
      cases l with
      | nil => rfl
      | cons b bs => simp [setpassword]

/-- Model of `_encrypt_zip_file` raises (`struct.error` from `struct.pack('<I',…)`)
exactly when the ciphertext length does not fit in 32 bits. -/
theorem encrypt_zip_file_none (H : HashLib) (st : ZState)
    (p salt data : List Nat)
    (h : ¬ (encrypt_data H st.algorithm p salt data).length < 4294967296) :
    encrypt_zip_file H st p salt data = none := by
  simp [encrypt_zip_file, toLE4, h]

/-- When the encryption step of `_create_encrypted_zip` raises, the
method exits with the temporary zip still written and no container. -/
theorem create_encrypted_zip_err (H : HashLib) (st : ZState)
    (tempPath outPath : String) (p salt zipData : List Nat) (fs : FS)
    (h : encrypt_zip_file H st p salt zipData = none) :
    create_encrypted_zip H st tempPath outPath p salt zipData fs =
      (.err, fsWrite fs tempPath zipData) := by
  simp [create_encrypted_zip, h]

/-- C8 (counterexample): `_create_encrypted_zip` has no `try`/`finally`.
When `_encrypt_zip_file` raises — concretely, `struct.pack('<I', ...)`
fails on a 2^32-byte archive — the exception propagates and the
unencrypted temporary zip file is left on disk, refuting "the temporary
file is removed on every exit path". -/
theorem C8_counterexample :
    (create_encrypted_zip sampleHash ⟨some [97], .xor⟩ "archive.tmp.zip"
      "archive.zip" [97] (List.replicate 16 7)
      (List.replicate 4294967296 0) []).1 = .err ∧
    fsLookup (create_encrypted_zip sampleHash ⟨some [97], .xor⟩
      "archive.tmp.zip" "archive.zip" [97] (List.replicate 16 7)
      (List.replicate 4294967296 0) []).2 "archive.tmp.zip" =
      some (List.replicate 4294967296 0) := by
  have hlen : (encrypt_data sampleHash EncryptionAlgorithm.xor [97]
      (List.replicate 16 7) (List.replicate 4294967296 0)).length =
      4294967296 := by
    show (xorCycle (sampleHash.sha256 [97]) 0
      (List.replicate 4294967296 0)).length = 4294967296
    rw [xorCycle_length, List.length_replicate]
  have hnone : encrypt_zip_file sampleHash ⟨some [97], .xor⟩ [97]
      (List.replicate 16 7) (List.replicate 4294967296 0) = none := by
    refine encrypt_zip_file_none sampleHash ⟨some [97], .xor⟩ [97]
      (List.replicate 16 7) (List.replicate 4294967296 0) ?_
    rw [show (encrypt_data sampleHash
      (ZState.mk (some [97]) EncryptionAlgorithm.xor).algorithm [97]
      (List.replicate 16 7) (List.replicate 4294967296 0)).length =
      4294967296 from hlen]
    omega
  have hcz := create_encrypted_zip_err sampleHash ⟨some [97], .xor⟩
    "archive.tmp.zip" "archive.zip" [97] (List.replicate 16 7)
    (List.replicate 4294967296 0) [] hnone
  constructor
  · rw [hcz]
  · rw [hcz]
    exact fsLookup_fsWrite_self [] "archive.tmp.zip" _

/-- C8 (amended): on the success path of `_create_encrypted_zip` — i.e.
whenever `_encrypt_zip_file` succeeds — the temporary zip is removed and
the container is the only artifact written; when the encryption step
fails, no partial container is written but the temporary unencrypted zip
remains on disk (shown by the counterexample). -/
theorem C8_cleanup_on_success (H : HashLib) (st : ZState)
    (tempPath outPath : String) (hne : outPath ≠ tempPath)
    (p salt zipData c : List Nat) (fs : FS)
    (henc : encrypt_zip_file H st p salt zipData = some c) :
    (create_encrypted_zip H st tempPath outPath p salt zipData fs).1 =
      .ok outPath ∧
    fsLookup (create_encrypted_zip H st tempPath outPath p salt zipData
      fs).2 tempPath = none ∧
    fsLookup (create_encrypted_zip H st tempPath outPath p salt zipData
      fs).2 outPath = some c := by
  simp only [create_encrypted_zip, henc]
  refine ⟨trivial, fsLookup_fsRemove_self _ _, ?_⟩
  rw [fsLookup_fsRemove_other _ _ _ hne, fsLookup_fsWrite_self]

theorem C8_cleanup_on_success_witness :
    (create_encrypted_zip sampleHash ⟨some [97], .xor⟩ "a.tmp.zip" "a.zip"
      [97] (List.replicate 16 7) [1, 2, 3] []).1 = .ok "a.zip" ∧
    fsLookup (create_encrypted_zip sampleHash ⟨some [97], .xor⟩ "a.tmp.zip"
      "a.zip" [97] (List.replicate 16 7) [1, 2, 3] []).2 "a.tmp.zip" =
      none ∧
    fsLookup (create_encrypted_zip sampleHash ⟨some [97], .xor⟩ "a.tmp.zip"
      "a.zip" [97] (List.replicate 16 7) [1, 2, 3] []).2 "a.zip" =
      some ((encrypt_zip_file sampleHash ⟨some [97], .xor⟩ [97]
        (List.replicate 16 7) [1, 2, 3]).getD []) :=
  C8_cleanup_on_success sampleHash ⟨some [97], .xor⟩ "a.tmp.zip" "a.zip"
    (by decide) [97] (List.replicate 16 7) [1, 2, 3] _ [] (by decide)

/-- C9: frame effect of auto-detection. A successful decode of a container
whose token `A` differs from the decoder's configured algorithm `A2`
leaves the engine with `_encryption_algorithm = A` — so a subsequent
encode on the same engine encrypts under `A`, not under the algorithm the
caller last configured. -/
theorem C9_adoption_persists (H : HashLib) (hW : H.Wf)
    (pw pw2 : Option (List Nat)) (A A2 : EncryptionAlgorithm)
    (hAA : A ≠ A2) (p p2 salt salt2 data data2 c : List Nat)
    (hs : salt.length = 16)
    (henc : encrypt_zip_file H ⟨pw, A⟩ p salt data = some c) :
    (decrypt_zip_file H ⟨pw2, A2⟩ c p).2 = ⟨pw2, A⟩ ∧
    encrypt_zip_file H (decrypt_zip_file H ⟨pw2, A2⟩ c p).2 p2 salt2
      data2 = encrypt_zip_file H ⟨pw2, A⟩ p2 salt2 data2 := by
  have h := decode_encode H hW ⟨pw, A⟩ ⟨pw2, A2⟩ p salt data c hs henc
  rw [h, if_neg (fun hh => hAA hh)]
  exact ⟨rfl, rfl⟩

theorem C9_adoption_persists_witness :
    (decrypt_zip_file sampleHash ⟨some [97], .xor⟩
      ((encrypt_zip_file sampleHash ⟨some [97], .double_xor⟩ [97]
        (List.replicate 16 7) [1, 2, 3]).getD []) [97]).2 =
      (⟨some [97], .double_xor⟩ : ZState) ∧
    encrypt_zip_file sampleHash
      (decrypt_zip_file sampleHash ⟨some [97], .xor⟩
        ((encrypt_zip_file sampleHash ⟨some [97], .double_xor⟩ [97]
          (List.replicate 16 7) [1, 2, 3]).getD []) [97]).2 [97]
      (List.replicate 16 7) [9, 9] =
      encrypt_zip_file sampleHash ⟨some [97], .double_xor⟩ [97]
        (List.replicate 16 7) [9, 9] :=
  C9_adoption_persists sampleHash sampleHash_wf (some [97]) (some [97])
    .double_xor .xor (by decide) [97] [97] (List.replicate 16 7)
    (List.replicate 16 7) [1, 2, 3] [9, 9] _ (by decide) (by decide)

/-- C10: the 8-byte commitment written at offset 13 of every container is
exactly the first 8 bytes of the 32-byte derived key, because
`_generate_key` and the commitment both compute SHA-256 of the UTF-8
password bytes: the container exposes the first quarter of the keying
material. -/
theorem C10_commitment_equals_key_start (H : HashLib) (hW : H.Wf)
    (st : ZState) (p salt data c : List Nat)
    (henc : encrypt_zip_file H st p salt data = some c) :
    (c.drop 13).take 8 = (generate_key H p).take 8 ∧
    (generate_key H p).length = 32 := by
  obtain ⟨hL, hc⟩ := encrypt_zip_file_some H st p salt data c henc
  subst hc
  refine ⟨?_, hW.1 p⟩
  rw [show (13 : Nat) = 9 + 4 from rfl, ← List.drop_drop]
  simp only [List.append_assoc]
  rw [List.drop_left' (show magicBytes.length = 9 from rfl),
    List.drop_left' (le4bytes_length _),
    List.take_left' (commit_length H hW p)]
  rfl

theorem C10_commitment_equals_key_start_witness :
    ((((encrypt_zip_file sampleHash ⟨some [97], .xor⟩ [97]
      (List.replicate 16 7) [1, 2, 3]).getD []).drop 13).take 8 =
      (generate_key sampleHash [97]).take 8) ∧
    (generate_key sampleHash [97]).length = 32 :=
  C10_commitment_equals_key_start sampleHash sampleHash_wf ⟨some [97], .xor⟩
    [97] (List.replicate 16 7) [1, 2, 3] _ (by decide)

end Minizipper
